import Mathlib

/-!
Verification of the RMTFinder entity-matching and incremental-aggregation
pipeline.  The definitions below are shallow embeddings of the Python source:

* `calculateCompositeScore`  ← `GeminiReviewAnalyzer._calculate_composite_score`
  (src/tools/gemini_review_analyzer.py)
* the database operations     ← `RMTMonitoringDatabase` and `AnalysisOnlyRunner`
  (src/tools/incremental_rmt_system.py, src/tools/run_analysis_only.py)
* the match engine            ← `RMTReviewExtractor.find_text_matches`
  (src/tools/rmt_review_extractor.py)

Python floats are modelled as rationals, machine ints as `Nat`/`Int`,
SQLite tables as lists of typed rows, and fallible operations return the
state unchanged exactly where the source returns early.
-/

namespace RMTFinder

/-! ### Composite reputation score
Embedding of `GeminiReviewAnalyzer._calculate_composite_score`
(src/tools/gemini_review_analyzer.py, lines 405-435).  Python floats are
modelled as `ℚ`; the review counters are `ℕ` as in the source. -/

/-- Quality component of the composite score: the pooled
technical/communication/professionalism ratings, mapped by
`(avg - 1) * 7.5`, defaulting to `15` when no ratings exist
(`quality_score = (sum(quality_scores) / len(quality_scores) - 1) * 7.5
if quality_scores else 15`). -/
def qualityComponent (technical communication professionalism : List ℚ) : ℚ :=
  if technical ++ communication ++ professionalism = [] then 15
  else ((technical ++ communication ++ professionalism).sum /
    (((technical ++ communication ++ professionalism).length : ℕ) : ℚ) - 1) * 7.5

/-- Embedding of `_calculate_composite_score`.  The `authentic`, `positive`
and `negative` arguments are accepted but unused, exactly as in the source. -/
def calculateCompositeScore (totalReviews highConfidence authentic positive negative : ℕ)
    (avgSentiment : ℚ) (technical communication professionalism : List ℚ)
    (recommendations repeatClients falsePositives : ℕ) : ℚ :=
  if totalReviews = 0 then 0
  else
    let sentimentScore : ℚ := max 0 (min 40 ((avgSentiment + 1) * 20))
    let qualityScore : ℚ := qualityComponent technical communication professionalism
    let confidenceRatio : ℚ := if 0 < totalReviews then (highConfidence : ℚ) / (totalReviews : ℚ) else 0
    let volumeBonus : ℚ := min 10 (totalReviews : ℚ)
    let confidenceBonus : ℚ := confidenceRatio * 10
    let recommendationBonus : ℚ :=
      if 0 < totalReviews then ((recommendations : ℚ) / (totalReviews : ℚ)) * 5 else 0
    let repeatClientBonus : ℚ :=
      if 0 < totalReviews then ((repeatClients : ℚ) / (totalReviews : ℚ)) * 5 else 0
    let falsePositivePenalty : ℚ := min 20 ((falsePositives : ℚ) * 5)
    let composite := sentimentScore + qualityScore + volumeBonus + confidenceBonus
      + recommendationBonus + repeatClientBonus - falsePositivePenalty
    max 0 (min 100 composite)

/-- C5: for every input to the composite-score computation — any total review
count including zero, any average sentiment, any (possibly empty) rating
lists, and any counts of high-confidence, recommending, repeat-client and
false-positive reviews — `_calculate_composite_score` returns a value in
`[0, 100]`. -/
theorem composite_score_bounded
    (totalReviews highConfidence authentic positive negative : ℕ)
    (avgSentiment : ℚ) (technical communication professionalism : List ℚ)
    (recommendations repeatClients falsePositives : ℕ) :
    0 ≤ calculateCompositeScore totalReviews highConfidence authentic positive negative
        avgSentiment technical communication professionalism
        recommendations repeatClients falsePositives ∧
    calculateCompositeScore totalReviews highConfidence authentic positive negative
        avgSentiment technical communication professionalism
        recommendations repeatClients falsePositives ≤ 100 := by
  unfold calculateCompositeScore
  split
  · norm_num
  · constructor
    · exact le_max_left 0 _
    · exact max_le (by norm_num) (min_le_left 100 _)

/-- C8: the quality component is `15` when no ratings are pooled; otherwise it
is the pooled average mapped linearly by `(avg - 1) * 7.5`, which sends an
average rating of `1` to `0` points and an average rating of `5` to `30`
points. -/
theorem quality_component_linear_map
    (technical communication professionalism : List ℚ) :
    (technical ++ communication ++ professionalism = [] →
      qualityComponent technical communication professionalism = 15) ∧
    (technical ++ communication ++ professionalism ≠ [] →
      (qualityComponent technical communication professionalism =
        ((technical ++ communication ++ professionalism).sum /
          ((technical ++ communication ++ professionalism).length : ℚ) - 1) * 7.5) ∧
      ((technical ++ communication ++ professionalism).sum /
          ((technical ++ communication ++ professionalism).length : ℚ) = 1 →
        qualityComponent technical communication professionalism = 0) ∧
      ((technical ++ communication ++ professionalism).sum /
          ((technical ++ communication ++ professionalism).length : ℚ) = 5 →
        qualityComponent technical communication professionalism = 30)) := by
  constructor
  · intro hnil
    unfold qualityComponent
    rw [if_pos hnil]
  · intro hne
    have hbody : qualityComponent technical communication professionalism =
        ((technical ++ communication ++ professionalism).sum /
          ((technical ++ communication ++ professionalism).length : ℚ) - 1) * 7.5 := by
      unfold qualityComponent
      rw [if_neg hne]
    refine ⟨hbody, ?_, ?_⟩
    · intro havg; rw [hbody, havg]; norm_num
    · intro havg; rw [hbody, havg]; norm_num

/-- Witness for C8 at concrete inputs: a single rating of 1 gives 0 points, a
single rating of 5 gives 30 points, and no ratings give 15 points. -/
theorem quality_component_linear_map_witness :
    qualityComponent [1] [] [] = 0 ∧
    qualityComponent [5] [] [] = 30 ∧
    qualityComponent [] [] [] = 15 := by
  refine ⟨?_, ?_, ?_⟩
  · exact ((quality_component_linear_map [1] [] []).2 (by simp)).2.1 (by norm_num)
  · exact ((quality_component_linear_map [5] [] []).2 (by simp)).2.2 (by norm_num)
  · exact (quality_component_linear_map [] [] []).1 (by simp)

/-! ### SQLite store model
The three tables the claims touch (`monitoring_runs`, `rmt_profiles`,
`ai_analyses`) are modelled as lists of typed rows; the JSON
`reviews_data` array embedded in `rmt_profiles` is a list of
`ReviewEntry`.  Timestamps (`datetime.now()`, `int(time.time())`) are
external inputs and are passed in as explicit parameters.  The MD5 hex
digest (external `hashlib`) is a parameter `h : String → String` of every
operation that hashes. -/

/-- One element of the `reviews_data` JSON array stored by
`save_review_extraction`. -/
structure ReviewEntry where
  review_hash : String
  extraction_id : String
  place_id : String
  place_name : String
  place_address : String
  review_text : String
  review_rating : ℕ
  review_author : String
  review_timestamp : ℕ
  review_time_description : String
  matched_text_segments : List String
  confidence_scores : List ℕ
  max_confidence : ℕ
  extracted_at : String
  extraction_run_id : String
deriving Repr, DecidableEq

/-- A row of the `rmt_profiles` table. -/
structure RMTProfile where
  profile_id : String
  first_name : String
  last_name : String
  common_first_name : String
  common_last_name : String
  registration_status : String
  authorized_to_practice : Bool
  practice_locations : String
  cmto_endpoint : String
  reviews_data : List ReviewEntry
  total_reviews : ℕ
  last_review_date : Option String
  first_seen_run_id : String
  last_updated_run_id : String
  last_updated_at : String
deriving Repr, DecidableEq

/-- A row of the `ai_analyses` table.  `mention_confidence` is optional
because `AnalysisOnlyRunner.save_analysis` inserts rows without that
column. -/
structure AiAnalysisRow where
  analysis_id : String
  profile_id : String
  analysis_run_id : String
  review_hash : String
  sentiment_overall : String
  sentiment_confidence : ℚ
  mention_confidence : Option ℚ
  technical_skill_rating : ℤ
  communication_rating : ℤ
  professionalism_rating : ℤ
  review_authenticity : String
  potential_false_positive : Bool
  overall_analysis_confidence : ℚ
  analysis_json : String
  analyzed_at : String
  gemini_model_used : String
deriving Repr, DecidableEq

/-- A row of the `monitoring_runs` table. -/
structure RunRow where
  run_id : String
  run_type : String
  started_at : String
  completed_at : Option String
  search_keywords : String
  rmts_processed : ℕ
  reviews_extracted : ℕ
  reviews_analyzed : ℕ
  status : String
  error_message : Option String
deriving Repr, DecidableEq

/-- The persistent store (the `leaderboard_snapshots` table is not touched
by any claim and is omitted). -/
structure DBState where
  runs : List RunRow
  profiles : List RMTProfile
  analyses : List AiAnalysisRow
deriving Repr, DecidableEq

def emptyDB : DBState := ⟨[], [], []⟩

/-- The fields of a `ReviewExtraction` that `save_review_extraction` and
`save_ai_analysis` read (src/tools/rmt_review_extractor.py, dataclass
`ReviewExtraction`; the `review_data`, `place_data` and `rmt_data` dicts
are flattened to the keys actually accessed). -/
structure ExtractionInput where
  extraction_id : String
  profile_id : String
  review_text : String
  review_author : String
  review_time : ℕ
  review_rating : ℕ
  review_time_description : String
  place_id : String
  place_name : String
  place_address : String
  matched_text_segments : List String
  confidence_scores : List ℕ
deriving Repr, DecidableEq

/-- The fields of a `ComprehensiveRMTAnalysis` that the two analysis-saving
functions read. -/
structure AnalysisInput where
  extraction_id : String
  sentiment_overall : String
  sentiment_confidence : ℚ
  mention_confidence : ℚ
  technical_skill_rating : ℤ
  communication_rating : ℤ
  professionalism_rating : ℤ
  review_authenticity : String
  potential_false_positive : Bool
  overall_analysis_confidence : ℚ
  analysis_json : String
deriving Repr, DecidableEq

/-- `f"{text}|{author}|{time}"`: the content whose MD5 is the review hash in
`save_review_extraction`. -/
def reviewContent (e : ExtractionInput) : String :=
  e.review_text ++ "|" ++ e.review_author ++ "|" ++ toString e.review_time

/-- The `new_review` dict built by `save_review_extraction`
(`max_confidence = max(confidence_scores) if confidence_scores else 0`). -/
def mkNewReview (h : String → String) (e : ExtractionInput)
    (runId nowIso : String) : ReviewEntry where
  review_hash := h (reviewContent e)
  extraction_id := e.extraction_id
  place_id := e.place_id
  place_name := e.place_name
  place_address := e.place_address
  review_text := e.review_text
  review_rating := e.review_rating
  review_author := e.review_author
  review_timestamp := e.review_time
  review_time_description := e.review_time_description
  matched_text_segments := e.matched_text_segments
  confidence_scores := e.confidence_scores
  max_confidence := e.confidence_scores.foldl max 0
  extracted_at := nowIso
  extraction_run_id := runId

/-- Embedding of `RMTMonitoringDatabase.save_review_extraction`
(src/tools/incremental_rmt_system.py, lines 261-326).  `h` is the MD5 hex
digest, `nowIso` is `datetime.now().isoformat()` and `now2` the second
`datetime.now()` used for `last_updated_at`.  Returns the new store and the
boolean the Python function returns.  When no `rmt_profiles` row matches,
the source still builds the new review and runs an `UPDATE` that matches no
row, then returns `True`; the embedding mirrors that: the map over
`profiles` changes nothing and the flag is `true`. -/
def saveReviewExtraction (h : String → String) (db : DBState) (e : ExtractionInput)
    (runId nowIso now2 : String) : DBState × Bool :=
  let review_hash := h (reviewContent e)
  let existing := db.profiles.find? (fun p => p.profile_id == e.profile_id)
  let reviews_data := (existing.map (·.reviews_data)).getD []
  if review_hash ∈ reviews_data.map (·.review_hash) then (db, false)
  else
    let newReview := mkNewReview h e runId nowIso
    let profiles' := db.profiles.map fun p =>
      if p.profile_id = e.profile_id then
        { p with reviews_data := p.reviews_data ++ [newReview],
                 total_reviews := p.total_reviews + 1,
                 last_review_date := some nowIso,
                 last_updated_run_id := runId,
                 last_updated_at := now2 }
      else p
    ({ db with profiles := profiles' }, true)

/-- `extraction_id.split('_')`, on character lists. -/
def splitUnd : List Char → List (List Char)
  | [] => [[]]
  | c :: cs =>
    match splitUnd cs with
    | [] => if c = '_' then [[], []] else [[c]]
    | r :: rs => if c = '_' then [] :: r :: rs else (c :: r) :: rs

/-- Embedding of `RMTMonitoringDatabase.save_ai_analysis`
(src/tools/incremental_rmt_system.py, lines 328-368): the profile id and
review hash are recovered from `extraction_id.split('_')` (`parts[0]` and
`parts[-1]`); if fewer than 3 parts, the function logs an error and returns
without inserting. `nowTs` is `int(time.time())` rendered into the analysis
id and `now` is `datetime.now()`. -/
def saveAiAnalysis (db : DBState) (a : AnalysisInput)
    (runId modelUsed nowTs now : String) : DBState :=
  let parts := splitUnd a.extraction_id.data
  if 3 ≤ parts.length then
    { db with analyses := db.analyses ++
      [{ analysis_id := "analysis_" ++ a.extraction_id ++ "_" ++ nowTs
         profile_id := String.mk (parts.headD [])
         analysis_run_id := runId
         review_hash := String.mk (parts.getLastD [])
         sentiment_overall := a.sentiment_overall
         sentiment_confidence := a.sentiment_confidence
         mention_confidence := some a.mention_confidence
         technical_skill_rating := a.technical_skill_rating
         communication_rating := a.communication_rating
         professionalism_rating := a.professionalism_rating
         review_authenticity := a.review_authenticity
         potential_false_positive := a.potential_false_positive
         overall_analysis_confidence := a.overall_analysis_confidence
         analysis_json := a.analysis_json
         analyzed_at := now
         gemini_model_used := modelUsed }] }
  else db

/-- The record `get_unanalyzed_extractions` assembles per unanalyzed review. -/
structure UnanalyzedRow where
  extraction_id : String
  profile_id : String
  review_text : String
  review_rating : ℕ
  review_author : String
  review_time_description : String
  place_id : String
  place_name : String
  place_address : String
  matched_text_segments : List String
  confidence_scores : List ℕ
  max_confidence : ℕ
deriving Repr, DecidableEq

/-- Embedding of `RMTMonitoringDatabase.get_unanalyzed_extractions`
(src/tools/incremental_rmt_system.py, lines 370-418) with `limit=None`:
for each profile with a non-empty `reviews_data` array, the reviews whose
`review_hash` is absent from that profile's `ai_analyses` rows. -/
def getUnanalyzedExtractions (db : DBState) : List UnanalyzedRow :=
  (db.profiles.filter (fun p => !p.reviews_data.isEmpty)).flatMap fun p =>
    let analyzedHashes :=
      (db.analyses.filter (fun a => a.profile_id == p.profile_id)).map (·.review_hash)
    (p.reviews_data.filter (fun rv => !(analyzedHashes.contains rv.review_hash))).map
      fun rv =>
        { extraction_id := rv.extraction_id
          profile_id := p.profile_id
          review_text := rv.review_text
          review_rating := rv.review_rating
          review_author := rv.review_author
          review_time_description := rv.review_time_description
          place_id := rv.place_id
          place_name := rv.place_name
          place_address := rv.place_address
          matched_text_segments := rv.matched_text_segments
          confidence_scores := rv.confidence_scores
          max_confidence := rv.max_confidence }

/-- `f"{rmt_data.profile_id}_{place_id}_{review_hash}"` with
`review_hash = hashlib.md5(review_text.encode()).hexdigest()[:8]`
(src/tools/rmt_review_extractor.py, `extract_review_data`). -/
def mkExtractionId (h : String → String) (profileId placeId text : String) : String :=
  profileId ++ "_" ++ placeId ++ "_" ++ String.mk ((h text).data.take 8)

/-! ### Run lifecycle operations -/

/-- Python truthiness of an `Optional[str]`: `None` and `''` are falsy. -/
def pyTruthy : Option String → Bool
  | none => false
  | some s => s != ""

/-- Embedding of `RMTMonitoringDatabase.start_monitoring_run`: inserts a row
with status `'running'` (the run id `f"{run_type}_{int(time.time())}"` is
passed in, the clock being external). -/
def startMonitoringRun (db : DBState) (runId runType keywords now : String) : DBState :=
  { db with runs := db.runs ++
    [{ run_id := runId, run_type := runType, started_at := now, completed_at := none,
       search_keywords := keywords, rmts_processed := 0, reviews_extracted := 0,
       reviews_analyzed := 0, status := "running", error_message := none }] }

/-- Embedding of `RMTMonitoringDatabase.complete_monitoring_run`
(src/tools/incremental_rmt_system.py, lines 177-197):
`status = 'failed' if error else 'completed'` and an `UPDATE ... WHERE
run_id = ?` stamping end time, counters, status and error message. -/
def completeMonitoringRun (db : DBState) (runId : String)
    (stats : ℕ × ℕ × ℕ) (error : Option String) (now : String) : DBState :=
  { db with runs := db.runs.map fun r =>
      if r.run_id = runId then
        { r with completed_at := some now,
                 rmts_processed := stats.1,
                 reviews_extracted := stats.2.1,
                 reviews_analyzed := stats.2.2,
                 status := if pyTruthy error then "failed" else "completed",
                 error_message := error }
      else r }

/-- Embedding of `AnalysisOnlyRunner.create_monitoring_run`
(src/tools/run_analysis_only.py): inserts a `'running'` row of type
`'analysis_only'`. -/
def analysisCreateRun (db : DBState) (runId now : String) : DBState :=
  { db with runs := db.runs ++
    [{ run_id := runId, run_type := "analysis_only", started_at := now,
       completed_at := none, search_keywords := "[\"analysis_only\"]",
       rmts_processed := 0, reviews_extracted := 0, reviews_analyzed := 0,
       status := "running", error_message := none }] }

/-- Embedding of `AnalysisOnlyRunner.update_monitoring_run`
(src/tools/run_analysis_only.py, lines 175-188):
`status = 'completed' if failed == 0 else 'completed_with_errors'`, and the
error message is the summary string when `failed > 0`, else `NULL`. -/
def analysisUpdateRun (db : DBState) (runId : String)
    (reviewsAnalyzed successful failed : ℕ) (now : String) : DBState :=
  { db with runs := db.runs.map fun r =>
      if r.run_id = runId then
        { r with completed_at := some now,
                 reviews_analyzed := reviewsAnalyzed,
                 status := if failed = 0 then "completed" else "completed_with_errors",
                 error_message :=
                   if 0 < failed then
                     some ("Analysis complete: " ++ toString successful ++
                       " successful, " ++ toString failed ++ " failed")
                   else none }
      else r }

/-- The four operations that ever write a `monitoring_runs` row. -/
inductive RunOp where
  | start (runId runType keywords now : String)
  | complete (runId : String) (stats : ℕ × ℕ × ℕ) (error : Option String) (now : String)
  | aCreate (runId now : String)
  | aUpdate (runId : String) (reviewsAnalyzed successful failed : ℕ) (now : String)
deriving Repr

def applyRunOp (db : DBState) : RunOp → DBState
  | .start runId runType keywords now => startMonitoringRun db runId runType keywords now
  | .complete runId stats error now => completeMonitoringRun db runId stats error now
  | .aCreate runId now => analysisCreateRun db runId now
  | .aUpdate runId r s f now => analysisUpdateRun db runId r s f now

/-- The run id an operation addresses. -/
def RunOp.target : RunOp → String
  | .start runId _ _ _ => runId
  | .complete runId _ _ _ => runId
  | .aCreate runId _ => runId
  | .aUpdate runId _ _ _ _ => runId

def runOps (db : DBState) (ops : List RunOp) : DBState := ops.foldl applyRunOp db

/-! ### AnalysisOnlyRunner.save_analysis -/

/-- Whitespace characters Python's `str.strip()` removes (ASCII range). -/
def isPyWs (c : Char) : Bool :=
  c == ' ' || c == '\t' || c == '\n' || c == '\r' ||
  c == Char.ofNat 11 || c == Char.ofNat 12

/-- Python's substring test `u in v`, on character lists. -/
def isInfixL (u : List Char) : List Char → Bool
  | [] => u.isPrefixOf []
  | c :: vs => u.isPrefixOf (c :: vs) || isInfixL u vs

/-- The sentinel substrings `save_analysis` rejects in an extraction id. -/
def sentinelSubstrings : List String :=
  ["N/A", "id", "review", "unknown", "placeholder", "prompt", "not", "provided"]

/-- `any(x in extraction_id for x in [...])`. -/
def containsAnySentinel (eid : String) : Bool :=
  sentinelSubstrings.any fun x => isInfixL x.data eid.data

/-- Embedding of `AnalysisOnlyRunner.save_analysis`
(src/tools/run_analysis_only.py, lines 115-152).  The guard mirrors
`if not extraction_id or extraction_id.strip() == '' or any(x in
extraction_id for x in [...]): return` (the `isinstance` test is vacuous in
the typed model); otherwise a row keyed by `extraction_id.split('_')[0]`
and `extraction_id.split('_')[-1]` is inserted, with no
`mention_confidence` column. -/
def saveAnalysisRAO (db : DBState) (a : AnalysisInput)
    (runId nowTs now : String) : DBState :=
  let eid := a.extraction_id
  if eid = "" ∨ eid.data.all isPyWs ∨ containsAnySentinel eid then db
  else
    let parts := splitUnd eid.data
    let profileId := String.mk (parts.headD [])
    { db with analyses := db.analyses ++
      [{ analysis_id := "analysis_" ++ profileId ++ "_" ++ nowTs
         profile_id := profileId
         analysis_run_id := runId
         review_hash := String.mk (parts.getLastD [])
         sentiment_overall := a.sentiment_overall
         sentiment_confidence := a.sentiment_confidence
         mention_confidence := none
         technical_skill_rating := a.technical_skill_rating
         communication_rating := a.communication_rating
         professionalism_rating := a.professionalism_rating
         review_authenticity := a.review_authenticity
         potential_false_positive := a.potential_false_positive
         overall_analysis_confidence := a.overall_analysis_confidence
         analysis_json := a.analysis_json
         analyzed_at := now
         gemini_model_used := "gemini-2.5-flash-preview-04-17" }] }

/-! ### Orchestrator full-run control flow
The `try` block of `IncrementalRMTMonitor.run_full_analysis`
(src/tools/incremental_rmt_system.py, lines 462-525) performs a sequence of
store mutations — `save_rmt_profile`, `save_review_extraction`,
`save_ai_analysis` — driven by external collaborators.  The control flow is
modelled by the list of mutations the try block would perform and an
optional unhandled exception: `none` runs every step then completes the run
normally; `some (k, msg)` aborts after `k` steps and the `except` branch
calls `complete_monitoring_run(run_id, stats, str(e))` before re-raising. -/

/-- The fields of an `RMTData` record that `save_rmt_profile` writes. -/
structure RMTDataInput where
  profile_id : String
  first_name : String
  last_name : String
  common_first_name : String
  common_last_name : String
  registration_status : String
  authorized_to_practice : Bool
  practice_locations : String
  cmto_endpoint : String
deriving Repr, DecidableEq

/-- Embedding of `RMTMonitoringDatabase.save_rmt_profile`: update the
matching row's identity fields if one exists, else insert a fresh row. -/
def saveRmtProfile (db : DBState) (r : RMTDataInput) (runId now : String) : DBState :=
  if db.profiles.any (fun p => p.profile_id == r.profile_id) then
    { db with profiles := db.profiles.map fun p =>
        if p.profile_id = r.profile_id then
          { p with first_name := r.first_name, last_name := r.last_name,
                   common_first_name := r.common_first_name,
                   common_last_name := r.common_last_name,
                   registration_status := r.registration_status,
                   authorized_to_practice := r.authorized_to_practice,
                   practice_locations := r.practice_locations,
                   cmto_endpoint := r.cmto_endpoint,
                   last_updated_run_id := runId,
                   last_updated_at := now }
        else p }
  else
    { db with profiles := db.profiles ++
      [{ profile_id := r.profile_id, first_name := r.first_name,
         last_name := r.last_name, common_first_name := r.common_first_name,
         common_last_name := r.common_last_name,
         registration_status := r.registration_status,
         authorized_to_practice := r.authorized_to_practice,
         practice_locations := r.practice_locations,
         cmto_endpoint := r.cmto_endpoint,
         reviews_data := [], total_reviews := 0, last_review_date := none,
         first_seen_run_id := runId, last_updated_run_id := runId,
         last_updated_at := now }] }

/-- A store mutation the full-run try block can perform. -/
inductive RunAction where
  | saveProf (r : RMTDataInput) (now : String)
  | saveExt (e : ExtractionInput) (nowIso now2 : String)
  | saveAnal (a : AnalysisInput) (modelUsed nowTs now : String)
deriving Repr

def applyRunAction (h : String → String) (runId : String) (db : DBState) :
    RunAction → DBState
  | .saveProf r now => saveRmtProfile db r runId now
  | .saveExt e nowIso now2 => (saveReviewExtraction h db e runId nowIso now2).1
  | .saveAnal a modelUsed nowTs now => saveAiAnalysis db a runId modelUsed nowTs now

/-- `run_full_analysis`: start the run, execute the try block (interrupted
after `k` steps when an exception `some (k, msg)` is raised), then complete
the run — with `error=None` on the normal path, with `error=str(e)` in the
`except` branch. -/
def runFullAnalysisModel (h : String → String) (db0 : DBState)
    (runId keywords now : String) (acts : List RunAction)
    (outcome : Option (ℕ × String)) (stats : ℕ × ℕ × ℕ) (endNow : String) : DBState :=
  let db1 := startMonitoringRun db0 runId "full" keywords now
  match outcome with
  | none => completeMonitoringRun (acts.foldl (applyRunAction h runId) db1)
      runId stats none endNow
  | some (k, msg) => completeMonitoringRun ((acts.take k).foldl (applyRunAction h runId) db1)
      runId stats (some msg) endNow

/-! ### Theorems: persistence claims -/

/-- `find?` commutes with a map that does not change the predicate. -/
theorem find?_map_of_pred_eq {α : Type} (l : List α) (u : α → α) (p : α → Bool)
    (hu : ∀ x, p (u x) = p x) : (l.map u).find? p = (l.find? p).map u := by
  induction l with
  | nil => simp
  | cons a t ih =>
    by_cases hp : p a
    · rw [List.map_cons, List.find?_cons_of_pos _ (by rw [hu]; exact hp),
        List.find?_cons_of_pos _ hp, Option.map_some']
    · rw [List.map_cons, List.find?_cons_of_neg _ (by rw [hu]; simpa using hp),
        List.find?_cons_of_neg _ (by simpa using hp), ih]

/-- C9: `save_analysis` never inserts a row when the extraction id is empty
or contains one of the sentinel substrings `'N/A'`, `'id'`, `'review'`,
`'unknown'`, `'placeholder'`, `'prompt'`, `'not'`, `'provided'`: it returns
with the store unchanged. -/
theorem save_analysis_rejects_malformed_id (db : DBState) (a : AnalysisInput)
    (runId nowTs now : String)
    (hbad : a.extraction_id = "" ∨ containsAnySentinel a.extraction_id = true) :
    saveAnalysisRAO db a runId nowTs now = db := by
  unfold saveAnalysisRAO
  rcases hbad with hb | hb
  · rw [if_pos (Or.inl hb)]
  · rw [if_pos (Or.inr (Or.inr hb))]

/-- Witness for C9: a placeholder-like id (`"unknown_place_hash"`) is
rejected and the store (here: empty) is unchanged. -/
theorem save_analysis_rejects_malformed_id_witness :
    containsAnySentinel "unknown_place_hash" = true ∧
    saveAnalysisRAO emptyDB
      { extraction_id := "unknown_place_hash", sentiment_overall := "positive",
        sentiment_confidence := 1, mention_confidence := 1,
        technical_skill_rating := 5, communication_rating := 5,
        professionalism_rating := 5, review_authenticity := "authentic",
        potential_false_positive := false, overall_analysis_confidence := 1,
        analysis_json := "{}" } "run1" "111" "now" = emptyDB :=
  ⟨by decide,
   save_analysis_rejects_malformed_id emptyDB _ "run1" "111" "now" (Or.inr (by decide))⟩

/-- C10: when no `rmt_profiles` row exists for the professional,
`save_review_extraction` reports `True` while persisting nothing — its
`UPDATE` matches no row — and an identical second call again returns `True`
instead of detecting the duplicate. -/
theorem save_extraction_missing_profile (h : String → String) (db : DBState)
    (e : ExtractionInput) (runId1 t1 t2 runId2 t3 t4 : String)
    (hnone : db.profiles.find? (fun p => p.profile_id == e.profile_id) = none) :
    saveReviewExtraction h db e runId1 t1 t2 = (db, true) ∧
    saveReviewExtraction h db e runId2 t3 t4 = (db, true) := by
  have hall : ∀ p ∈ db.profiles, ¬ p.profile_id = e.profile_id := by
    intro p hp
    have := List.find?_eq_none.mp hnone p hp
    simpa using this
  have hmap : ∀ (f : RMTProfile → RMTProfile),
      (db.profiles.map fun p => if p.profile_id = e.profile_id then f p else p)
        = db.profiles := by
    intro f
    rw [List.map_congr_left (fun p hp => if_neg (hall p hp))]
    exact List.map_id _
  constructor <;>
  · unfold saveReviewExtraction
    rw [hnone]
    simp only [Option.map_none', Option.getD_none, List.map_nil,
      List.not_mem_nil, if_false]
    rw [hmap]

/-- Witness for C10: on an empty store, both identical calls return `True`
and leave the store empty. -/
theorem save_extraction_missing_profile_witness :
    saveReviewExtraction (fun _ => "0123456789abcdef0123456789abcdef") emptyDB
      { extraction_id := "p1_pl1_01234567", profile_id := "p1",
        review_text := "Great massage", review_author := "Alice",
        review_time := 1700, review_rating := 5,
        review_time_description := "a month ago", place_id := "pl1",
        place_name := "Spa", place_address := "1 Main St",
        matched_text_segments := ["Jane"], confidence_scores := [95] }
      "runA" "T1" "T2" = (emptyDB, true) :=
  (save_extraction_missing_profile _ emptyDB _ "runA" "T1" "T2" "runB" "T3" "T4"
    (by decide)).1

/-- C2: with the professional's profile row present, a second
`save_review_extraction` call over an identical review (same text, author
and raw time, hence the same MD5 content hash) returns `False` and leaves
the store exactly as the first call left it, regardless of the run ids; and
the first call reports a new review exactly when the hash was not already
stored. -/
theorem save_extraction_idempotent (h : String → String) (db : DBState)
    (e : ExtractionInput) (p : RMTProfile) (run1 t1 t2 run2 t3 t4 : String)
    (hfind : db.profiles.find? (fun q => q.profile_id == e.profile_id) = some p) :
    (saveReviewExtraction h
        (saveReviewExtraction h db e run1 t1 t2).1 e run2 t3 t4).2 = false ∧
    (saveReviewExtraction h
        (saveReviewExtraction h db e run1 t1 t2).1 e run2 t3 t4).1 =
      (saveReviewExtraction h db e run1 t1 t2).1 ∧
    ((saveReviewExtraction h db e run1 t1 t2).2 = true ↔
      h (reviewContent e) ∉ p.reviews_data.map (·.review_hash)) := by
  have hpid : p.profile_id = e.profile_id := by
    have := List.find?_some hfind
    simpa using this
  by_cases hmem : h (reviewContent e) ∈ p.reviews_data.map (·.review_hash)
  · have h1 : saveReviewExtraction h db e run1 t1 t2 = (db, false) := by
      unfold saveReviewExtraction
      rw [hfind]
      simp only [Option.map_some', Option.getD_some]
      rw [if_pos hmem]
    have h2 : saveReviewExtraction h db e run2 t3 t4 = (db, false) := by
      unfold saveReviewExtraction
      rw [hfind]
      simp only [Option.map_some', Option.getD_some]
      rw [if_pos hmem]
    rw [h1]
    simp only [h2]
    simp [hmem]
  · -- first call stores the new review
    have h1 : saveReviewExtraction h db e run1 t1 t2 =
        ({ db with profiles := db.profiles.map fun q =>
            if q.profile_id = e.profile_id then
              { q with reviews_data := q.reviews_data ++ [mkNewReview h e run1 t1],
                       total_reviews := q.total_reviews + 1,
                       last_review_date := some t1,
                       last_updated_run_id := run1,
                       last_updated_at := t2 }
            else q }, true) := by
      unfold saveReviewExtraction
      rw [hfind]
      simp only [Option.map_some', Option.getD_some]
      rw [if_neg hmem]
    have hu : ∀ q : RMTProfile,
        ((if q.profile_id = e.profile_id then
            { q with reviews_data := q.reviews_data ++ [mkNewReview h e run1 t1],
                     total_reviews := q.total_reviews + 1,
                     last_review_date := some t1,
                     last_updated_run_id := run1,
                     last_updated_at := t2 }
          else q).profile_id == e.profile_id) = (q.profile_id == e.profile_id) := by
      intro q
      by_cases hq : q.profile_id = e.profile_id <;> simp [hq]
    have hfind2 : (saveReviewExtraction h db e run1 t1 t2).1.profiles.find?
        (fun q => q.profile_id == e.profile_id) =
        some { p with reviews_data := p.reviews_data ++ [mkNewReview h e run1 t1],
                      total_reviews := p.total_reviews + 1,
                      last_review_date := some t1,
                      last_updated_run_id := run1,
                      last_updated_at := t2 } := by
      rw [h1]
      dsimp only
      rw [find?_map_of_pred_eq _ _ _ hu, hfind]
      simp [hpid]
    have hstep : ∀ db' : DBState,
        db'.profiles.find? (fun q => q.profile_id == e.profile_id) =
          some { p with reviews_data := p.reviews_data ++ [mkNewReview h e run1 t1],
                        total_reviews := p.total_reviews + 1,
                        last_review_date := some t1,
                        last_updated_run_id := run1,
                        last_updated_at := t2 } →
        saveReviewExtraction h db' e run2 t3 t4 = (db', false) := by
      intro db' hf
      unfold saveReviewExtraction
      rw [hf]
      simp only [Option.map_some', Option.getD_some]
      rw [if_pos (by simp [mkNewReview])]
    have h2 := hstep _ hfind2
    refine ⟨by rw [h2], by rw [h2], ?_⟩
    rw [h1]
    simpa using hmem

/-- A one-profile store used to witness C2. -/
def c2Profile : RMTProfile where
  profile_id := "p1"
  first_name := "Jane"
  last_name := "Doe"
  common_first_name := ""
  common_last_name := ""
  registration_status := "Active"
  authorized_to_practice := true
  practice_locations := "[]"
  cmto_endpoint := ""
  reviews_data := []
  total_reviews := 0
  last_review_date := none
  first_seen_run_id := "r0"
  last_updated_run_id := "r0"
  last_updated_at := "T0"

def c2Db : DBState := ⟨[], [c2Profile], []⟩

def c2Ext : ExtractionInput where
  extraction_id := "p1_pl1_01234567"
  profile_id := "p1"
  review_text := "Great massage"
  review_author := "Alice"
  review_time := 1700
  review_rating := 5
  review_time_description := "a month ago"
  place_id := "pl1"
  place_name := "Spa"
  place_address := "1 Main St"
  matched_text_segments := ["Jane"]
  confidence_scores := [95]

def c2Hash : String → String := fun _ => "0123456789abcdef0123456789abcdef"

/-- Witness for C2: on the one-profile store, the second identical call
returns `False`. -/
theorem save_extraction_idempotent_witness :
    (saveReviewExtraction c2Hash
        ((saveReviewExtraction c2Hash c2Db c2Ext "runA" "T1" "T2").1)
        c2Ext "runB" "T3" "T4").2 = false :=
  (save_extraction_idempotent c2Hash c2Db c2Ext c2Profile "runA" "T1" "T2"
    "runB" "T3" "T4" (by decide)).1

/-! ### Theorems: run lifecycle -/

/-- The per-row property the amended C6 claims: status in the observed
four-value set, and a `'failed'` status always carries a non-empty error
message. -/
def RunRowOk (row : RunRow) : Prop :=
  row.status ∈ (["running", "completed", "failed", "completed_with_errors"] : List String) ∧
  (row.status = "failed" → ∃ s, row.error_message = some s ∧ s ≠ "")

theorem applyRunOp_rowOk (db : DBState) (op : RunOp)
    (hdb : ∀ r ∈ db.runs, RunRowOk r) :
    ∀ r ∈ (applyRunOp db op).runs, RunRowOk r := by
  intro r hr
  cases op with
  | start runId runType keywords now =>
    simp only [applyRunOp, startMonitoringRun, List.mem_append,
      List.mem_singleton] at hr
    rcases hr with hr | hr
    · exact hdb r hr
    · subst hr; exact ⟨by simp, by simp⟩
  | aCreate runId now =>
    simp only [applyRunOp, analysisCreateRun, List.mem_append,
      List.mem_singleton] at hr
    rcases hr with hr | hr
    · exact hdb r hr
    · subst hr; exact ⟨by simp, by simp⟩
  | complete runId stats error now =>
    simp only [applyRunOp, completeMonitoringRun, List.mem_map] at hr
    obtain ⟨r0, hr0, hmap⟩ := hr
    by_cases hid : r0.run_id = runId
    · rw [if_pos hid] at hmap
      subst hmap
      by_cases htr : pyTruthy error
      · refine ⟨by simp [htr], ?_⟩
        intro _
        match error, htr with
        | some s, htr =>
          exact ⟨s, rfl, by simpa [pyTruthy] using htr⟩
      · refine ⟨by simp [htr], ?_⟩
        intro hst
        simp [htr] at hst
    · rw [if_neg hid] at hmap
      subst hmap
      exact hdb r0 hr0
  | aUpdate runId ra s f now =>
    simp only [applyRunOp, analysisUpdateRun, List.mem_map] at hr
    obtain ⟨r0, hr0, hmap⟩ := hr
    by_cases hid : r0.run_id = runId
    · rw [if_pos hid] at hmap
      subst hmap
      by_cases hf : f = 0
      · exact ⟨by simp [hf], by simp [hf]⟩
      · exact ⟨by simp [hf], by simp [hf]⟩
    · rw [if_neg hid] at hmap
      subst hmap
      exact hdb r0 hr0

theorem runOps_rowOk (ops : List RunOp) :
    ∀ db : DBState, (∀ r ∈ db.runs, RunRowOk r) →
    ∀ r ∈ (runOps db ops).runs, RunRowOk r := by
  induction ops with
  | nil => intro db hdb; exact hdb
  | cons op rest ih =>
    intro db hdb
    exact ih (applyRunOp db op) (applyRunOp_rowOk db op hdb)

/-- C6 counterexample: (i) the analysis-only runner, updating a run that had
one failed analysis, writes status `'completed_with_errors'`, which is
outside the claimed three-value status set; (ii) a second
`complete_monitoring_run` call with no error on an already-`'failed'` run
overwrites its status with `'completed'`. -/
theorem run_lifecycle_claim_fails :
    (∃ row ∈ (runOps emptyDB
        [.aCreate "r1" "T0", .aUpdate "r1" 3 2 1 "T1"]).runs,
      row.status = "completed_with_errors" ∧
      row.status ∉ (["running", "completed", "failed"] : List String)) ∧
    (∃ row ∈ (runOps emptyDB
        [.start "r2" "full" "[]" "T0",
         .complete "r2" (0, 0, 0) (some "boom") "T1"]).runs,
      row.status = "failed") ∧
    (∃ row ∈ (runOps emptyDB
        [.start "r2" "full" "[]" "T0",
         .complete "r2" (0, 0, 0) (some "boom") "T1",
         .complete "r2" (0, 0, 0) none "T2"]).runs,
      row.status = "completed") := by
  decide

/-- C6 amended: every `monitoring_runs` row ever written has status
`'running'`, `'completed'`, `'failed'` or `'completed_with_errors'`; a
`'failed'` row carries a non-empty error message; and a `'failed'` run is
never changed by an operation addressed to a different run id — only a
second completion/update call for the same run id can overwrite it. -/
theorem run_lifecycle_amended :
    (∀ (ops : List RunOp) (row : RunRow), row ∈ (runOps emptyDB ops).runs →
      row.status ∈ (["running", "completed", "failed", "completed_with_errors"] : List String) ∧
      (row.status = "failed" → ∃ s, row.error_message = some s ∧ s ≠ "")) ∧
    (∀ (db : DBState) (op : RunOp) (row : RunRow), row ∈ db.runs →
      row.status = "failed" → op.target ≠ row.run_id →
      row ∈ (applyRunOp db op).runs) := by
  constructor
  · intro ops row hrow
    exact runOps_rowOk ops emptyDB (by intro r hr; simp [emptyDB] at hr) row hrow
  · intro db op row hrow _hfailed htarget
    cases op with
    | start runId runType keywords now =>
      simp only [applyRunOp, startMonitoringRun, List.mem_append]
      exact Or.inl hrow
    | aCreate runId now =>
      simp only [applyRunOp, analysisCreateRun, List.mem_append]
      exact Or.inl hrow
    | complete runId stats error now =>
      simp only [applyRunOp, completeMonitoringRun, List.mem_map]
      refine ⟨row, hrow, ?_⟩
      rw [if_neg]
      intro hc
      exact htarget (by simpa [RunOp.target] using hc.symm)
    | aUpdate runId ra s f now =>
      simp only [applyRunOp, analysisUpdateRun, List.mem_map]
      refine ⟨row, hrow, ?_⟩
      rw [if_neg]
      intro hc
      exact htarget (by simpa [RunOp.target] using hc.symm)

/-- A `'failed'` run row used in witnesses. -/
def c6FailedRow : RunRow where
  run_id := "r2"
  run_type := "full"
  started_at := "T0"
  completed_at := some "T1"
  search_keywords := "[]"
  rmts_processed := 0
  reviews_extracted := 0
  reviews_analyzed := 0
  status := "failed"
  error_message := some "boom"

/-- Witness for C6 amended, at concrete inputs: the row written by the
analysis-only trace has an allowed status, and a failed row survives an
operation on a different run untouched. -/
theorem run_lifecycle_amended_witness :
    (∀ row ∈ (runOps emptyDB [.aCreate "r1" "T0", .aUpdate "r1" 3 2 1 "T1"]).runs,
        row.status ∈ (["running", "completed", "failed", "completed_with_errors"] : List String)) ∧
    c6FailedRow ∈ (applyRunOp ⟨[c6FailedRow], [], []⟩ (.start "r3" "full" "[]" "T5")).runs := by
  constructor
  · intro row hrow
    exact (run_lifecycle_amended.1 [.aCreate "r1" "T0", .aUpdate "r1" 3 2 1 "T1"] row hrow).1
  · exact run_lifecycle_amended.2 ⟨[c6FailedRow], [], []⟩ (.start "r3" "full" "[]" "T5")
      c6FailedRow (by decide) (by decide) (by decide)

/-! ### Theorems: full-run failure handling -/

/-- None of the try-block store mutations touches the `monitoring_runs`
table. -/
theorem applyRunAction_runs (h : String → String) (runId : String)
    (db : DBState) (act : RunAction) :
    (applyRunAction h runId db act).runs = db.runs := by
  cases act with
  | saveProf r now =>
    simp only [applyRunAction, saveRmtProfile]
    split <;> rfl
  | saveExt e nowIso now2 =>
    simp only [applyRunAction, saveReviewExtraction]
    split <;> rfl
  | saveAnal a modelUsed nowTs now =>
    simp only [applyRunAction, saveAiAnalysis]
    split <;> rfl

theorem foldl_runActions_runs (h : String → String) (runId : String)
    (acts : List RunAction) :
    ∀ db : DBState, (acts.foldl (applyRunAction h runId) db).runs = db.runs := by
  induction acts with
  | nil => intro db; rfl
  | cons a rest ih =>
    intro db
    rw [List.foldl_cons, ih, applyRunAction_runs]

/-- C7 counterexample: an unhandled exception whose `str(e)` is the empty
string (e.g. a bare `ValueError()`) does not mark the run `'failed'`:
`complete_monitoring_run` treats the empty error message as falsy and
stamps the run `'completed'`. -/
theorem run_full_empty_error_completes :
    ∃ row ∈ (runFullAnalysisModel c2Hash emptyDB "full_1" "[]" "T0" []
        (some (0, "")) (0, 0, 0) "T9").runs,
      row.run_id = "full_1" ∧ row.status = "completed" ∧
      row.error_message = some "" := by
  decide

/-- C7 amended: an unhandled exception with a non-empty message during
`run_full_analysis` updates the run's row to status `'failed'` with the
exception's message as its error message (an empty `str(e)` instead yields
`'completed'`), and every review extraction persisted before the exception
remains in the store: the failure path touches only the
`monitoring_runs` table. -/
theorem run_full_failure_marks_failed (h : String → String) (db0 : DBState)
    (runId keywords now : String) (acts : List RunAction) (k : ℕ) (msg : String)
    (stats : ℕ × ℕ × ℕ) (endNow : String) (hmsg : msg ≠ "") :
    (∃ row ∈ (runFullAnalysisModel h db0 runId keywords now acts
        (some (k, msg)) stats endNow).runs,
      row.run_id = runId ∧ row.status = "failed" ∧ row.error_message = some msg) ∧
    (runFullAnalysisModel h db0 runId keywords now acts
        (some (k, msg)) stats endNow).profiles =
      ((acts.take k).foldl (applyRunAction h runId)
        (startMonitoringRun db0 runId "full" keywords now)).profiles := by
  constructor
  · set startRow : RunRow :=
      { run_id := runId, run_type := "full", started_at := now,
        completed_at := none, search_keywords := keywords,
        rmts_processed := 0, reviews_extracted := 0, reviews_analyzed := 0,
        status := "running", error_message := none } with hsr
    simp only [runFullAnalysisModel, completeMonitoringRun, List.mem_map]
    set mid := (acts.take k).foldl (applyRunAction h runId)
      (startMonitoringRun db0 runId "full" keywords now) with hmid
    have hruns : mid.runs = db0.runs ++ [startRow] := by
      rw [hmid, foldl_runActions_runs]
      rfl
    refine ⟨_, ⟨startRow, ?_, rfl⟩, ?_⟩
    · rw [hruns]
      simp
    · rw [hsr]
      rw [if_pos rfl]
      refine ⟨rfl, ?_, rfl⟩
      simp [pyTruthy, hmsg]
  · rfl

/-- Witness for C7 amended: a one-action run aborted by `"boom"` ends
`'failed'` with that message, profiles intact. -/
theorem run_full_failure_marks_failed_witness :
    ∃ row ∈ (runFullAnalysisModel c2Hash emptyDB "full_1" "[]" "T0"
        [.saveExt c2Ext "T1" "T2"] (some (0, "boom")) (0, 0, 0) "T9").runs,
      row.run_id = "full_1" ∧ row.status = "failed" ∧
      row.error_message = some "boom" :=
  (run_full_failure_marks_failed c2Hash emptyDB "full_1" "[]" "T0"
    [.saveExt c2Ext "T1" "T2"] 0 "boom" (0, 0, 0) "T9" (by decide)).1

/-! ### Theorems: backlog clearing (C1)
`save_review_extraction` stores `review_hash = md5(f"{text}|{author}|{time}")`
— a 32-character hex digest — while `save_ai_analysis` re-derives the hash
from the extraction id, whose last `_`-separated part is
`md5(review_text)[:8]`, an 8-character digest of the text alone.  The two
can never be equal, so an analyzed extraction never leaves the backlog. -/

theorem splitUnd_ne_nil (l : List Char) : splitUnd l ≠ [] := by
  cases l with
  | nil => simp [splitUnd]
  | cons c cs =>
    simp only [splitUnd]
    cases h : splitUnd cs with
    | nil => by_cases hc : c = '_' <;> simp [hc]
    | cons r rs => by_cases hc : c = '_' <;> simp [hc]

theorem splitUnd_no_sep (a : List Char) (ha : '_' ∉ a) : splitUnd a = [a] := by
  induction a with
  | nil => rfl
  | cons c cs ih =>
    have hc : c ≠ '_' := fun hc => ha (hc ▸ List.mem_cons_self c cs)
    have ihcs : splitUnd cs = [cs] := ih (fun h => ha (List.mem_cons_of_mem c h))
    simp only [splitUnd, ihcs]
    rw [if_neg hc]

theorem splitUnd_sep (a b : List Char) (ha : '_' ∉ a) :
    splitUnd (a ++ '_' :: b) = a :: splitUnd b := by
  induction a with
  | nil =>
    simp only [List.nil_append, splitUnd]
    rcases h : splitUnd b with _ | ⟨r, rs⟩
    · exact absurd h (splitUnd_ne_nil b)
    · simp
  | cons c cs ih =>
    have hc : c ≠ '_' := fun hc => ha (hc ▸ List.mem_cons_self c cs)
    have ihcs := ih (fun h => ha (List.mem_cons_of_mem c h))
    simp only [List.cons_append, splitUnd, List.append_eq, ihcs]
    rw [if_neg hc]

/-- The extraction used to exercise the backlog: it references the profile
of `c2Db` and carries the extraction id the extractor would build,
`f"{profile_id}_{place_id}_{md5(review_text)[:8]}"`. -/
def c1Ext (h : String → String) : ExtractionInput :=
  { c2Ext with extraction_id := mkExtractionId h "p1" "pl1" "Great massage" }

/-- The analysis result the orchestrator would persist for that
extraction (its `extraction_id` is the extraction's). -/
def c1Analysis (h : String → String) : AnalysisInput where
  extraction_id := (c1Ext h).extraction_id
  sentiment_overall := "positive"
  sentiment_confidence := 1
  mention_confidence := 1
  technical_skill_rating := 5
  communication_rating := 5
  professionalism_rating := 5
  review_authenticity := "authentic"
  potential_false_positive := false
  overall_analysis_confidence := 1
  analysis_json := "{}"

/-- C1 fails on the code: for every hash function producing 32-character
underscore-free hex digests (as MD5 does), after `save_review_extraction`
persists the review and `save_ai_analysis` persists its analysis, the
extraction still appears in `get_unanalyzed_extractions`: the analysis row
is keyed to the 8-character text-only digest parsed out of the extraction
id, which never equals the stored 32-character digest of
text|author|time. -/
theorem analyzed_extraction_stays_in_backlog (h : String → String)
    (hlen : ∀ s, (h s).data.length = 32) (hund : ∀ s, '_' ∉ (h s).data) :
    ∃ row ∈ getUnanalyzedExtractions
        (saveAiAnalysis
          (saveReviewExtraction h c2Db (c1Ext h) "runA" "T1" "T2").1
          (c1Analysis h) "runB" "gemini" "111" "T3"),
      row.extraction_id = (c1Ext h).extraction_id := by
  -- step 1: the extraction is stored on the profile row
  have hfind : c2Db.profiles.find? (fun q => q.profile_id == (c1Ext h).profile_id) =
      some c2Profile := rfl
  have h1 : saveReviewExtraction h c2Db (c1Ext h) "runA" "T1" "T2" =
      ({ runs := [],
         profiles := [{ c2Profile with
           reviews_data := [mkNewReview h (c1Ext h) "runA" "T1"],
           total_reviews := 1,
           last_review_date := some "T1",
           last_updated_run_id := "runA",
           last_updated_at := "T2" }],
         analyses := [] }, true) := by
    unfold saveReviewExtraction
    rw [hfind]
    simp only [Option.map_some', Option.getD_some]
    rw [if_neg (by simp [c2Profile])]
    rfl
  -- step 2: the analysis row is keyed to the 8-character digest
  have hdata : (mkExtractionId h "p1" "pl1" "Great massage").data =
      "p1".data ++ '_' :: ("pl1".data ++ '_' :: (h "Great massage").data.take 8) := by
    simp [mkExtractionId, String.data_append]
  have hparts : splitUnd (mkExtractionId h "p1" "pl1" "Great massage").data =
      ["p1".data, "pl1".data, (h "Great massage").data.take 8] := by
    rw [hdata, splitUnd_sep _ _ (by decide), splitUnd_sep _ _ (by decide),
      splitUnd_no_sep _ (fun hmem => hund "Great massage" (List.take_subset _ _ hmem))]
  have heid : (c1Analysis h).extraction_id = mkExtractionId h "p1" "pl1" "Great massage" := rfl
  have h2 : saveAiAnalysis
      (saveReviewExtraction h c2Db (c1Ext h) "runA" "T1" "T2").1
      (c1Analysis h) "runB" "gemini" "111" "T3" =
      { runs := [],
        profiles := [{ c2Profile with
          reviews_data := [mkNewReview h (c1Ext h) "runA" "T1"],
          total_reviews := 1,
          last_review_date := some "T1",
          last_updated_run_id := "runA",
          last_updated_at := "T2" }],
        analyses := [{ analysis_id := "analysis_" ++ (c1Analysis h).extraction_id ++ "_" ++ "111"
                       profile_id := String.mk "p1".data
                       analysis_run_id := "runB"
                       review_hash := String.mk ((h "Great massage").data.take 8)
                       sentiment_overall := "positive"
                       sentiment_confidence := 1
                       mention_confidence := some 1
                       technical_skill_rating := 5
                       communication_rating := 5
                       professionalism_rating := 5
                       review_authenticity := "authentic"
                       potential_false_positive := false
                       overall_analysis_confidence := 1
                       analysis_json := "{}"
                       analyzed_at := "T3"
                       gemini_model_used := "gemini" }] } := by
    rw [h1]
    unfold saveAiAnalysis
    rw [heid, hparts]
    rw [if_pos (by simp)]
    rfl
  rw [h2]
  -- step 3: the stored 32-character hash is not among the analyzed hashes
  have hneq : h (reviewContent (c1Ext h)) ≠
      String.mk ((h "Great massage").data.take 8) := by
    intro heq
    have hdlen : (h (reviewContent (c1Ext h))).data.length =
        ((h "Great massage").data.take 8).length := by rw [heq]
    rw [hlen, List.length_take, hlen] at hdlen
    simp at hdlen
  refine ⟨{ extraction_id := (c1Ext h).extraction_id, profile_id := "p1",
            review_text := "Great massage", review_rating := 5,
            review_author := "Alice", review_time_description := "a month ago",
            place_id := "pl1", place_name := "Spa", place_address := "1 Main St",
            matched_text_segments := ["Jane"], confidence_scores := [95],
            max_confidence := 95 }, ?_, rfl⟩
  unfold getUnanalyzedExtractions
  rw [List.mem_flatMap]
  refine ⟨{ c2Profile with
      reviews_data := [mkNewReview h (c1Ext h) "runA" "T1"],
      total_reviews := 1, last_review_date := some "T1",
      last_updated_run_id := "runA", last_updated_at := "T2" }, ?_, ?_⟩
  · rw [List.mem_filter]
    exact ⟨by simp, by simp [mkNewReview]⟩
  · have hbeq : (h (reviewContent (c1Ext h)) ==
        String.mk ((h "Great massage").data.take 8)) = false :=
      beq_eq_false_iff_ne.mpr hneq
    have hpid : String.mk "p1".data = "p1" := rfl
    simp only [hpid, mkNewReview]
    simp only [List.elem_cons, hbeq, c1Ext, c2Ext]
    simp
    exact ⟨_, ⟨rfl, fun _ h' => hneq h'.symm⟩, by simp [c2Profile]⟩

/-- Witness for C1 with a concrete 32-hex-character hash function: the
analyzed extraction is still returned by the backlog query. -/
theorem analyzed_extraction_stays_in_backlog_witness :
    ∃ row ∈ getUnanalyzedExtractions
        (saveAiAnalysis
          (saveReviewExtraction c2Hash c2Db (c1Ext c2Hash) "runA" "T1" "T2").1
          (c1Analysis c2Hash) "runB" "gemini" "111" "T3"),
      row.extraction_id = (c1Ext c2Hash).extraction_id :=
  by
  have hx : ("0123456789abcdef0123456789abcdef" : String).data.length = 32 := by decide
  have hy : '_' ∉ ("0123456789abcdef0123456789abcdef" : String).data := by decide
  exact analyzed_extraction_stays_in_backlog c2Hash (fun _ => hx) (fun _ => hy)

/-! ### Match engine
Embedding of `RMTReviewExtractor.find_text_matches`
(src/tools/rmt_review_extractor.py, lines 620-683).  Text is a `List Char`.
Python's `\w`, `\s` and `str.lower()` are modelled on the ASCII range.  The
two regex shapes the source builds — `re.escape(term).replace(r'\ ',
r'\s+')`, optionally wrapped in `\b...\b` — are implemented directly: each
literal character matches case-insensitively (`re.IGNORECASE`), each space
matches one or more whitespace characters greedily with backtracking.  The
external fuzzywuzzy scorers `fuzz.partial_ratio` and `fuzz.ratio` are
parameters `pr` and `r`. -/

/-- Python `\w` on the ASCII range: alphanumeric or underscore. -/
def isPyWordChar (c : Char) : Bool := c.isAlphanum || c == '_'

/-- One character of `re.sub(r'[^\w\s]', ' ', ·)`. -/
def cleanChar (c : Char) : Char :=
  if isPyWordChar c || isPyWs c then c else ' '

/-- `clean_text = re.sub(r'[^\w\s]', ' ', text.lower())`. -/
def cleanTextL (text : List Char) : List Char :=
  (text.map Char.toLower).map cleanChar

/-- `str.split()`, with the current in-progress word as accumulator. -/
def wordsAux : List Char → List Char → List (List Char)
  | [], cur => if cur = [] then [] else [cur]
  | c :: cs, cur =>
    if isPyWs c then (if cur = [] then wordsAux cs [] else cur :: wordsAux cs [])
    else wordsAux cs (cur ++ [c])

/-- `str.split()`: words separated by whitespace runs, no empties. -/
def wordsOf (l : List Char) : List (List Char) := wordsAux l []

/-- Length of the leading whitespace run. -/
def leadWs (s : List Char) : ℕ := (s.takeWhile isPyWs).length

/-- Match the term-derived pattern against a prefix of `s`, returning the
matched prefix: literal characters match case-insensitively, a space
matches one or more whitespace characters (longest first, backtracking). -/
def tryFlex : List Char → List Char → Option (List Char)
  | [], _ => some []
  | c :: ps, s =>
    if c = ' ' then
      ((List.range (leadWs s)).map (fun j => leadWs s - j)).findSome?
        (fun j => (tryFlex ps (s.drop j)).map (fun m => s.take j ++ m))
    else
      match s with
      | [] => none
      | x :: xs =>
        if x.toLower = c.toLower then (tryFlex ps xs).map (fun m => x :: m)
        else none

/-- `re.search(pattern, s)`: leftmost match. -/
def searchFlex (p : List Char) : List Char → Option (List Char)
  | [] => tryFlex p []
  | c :: xs =>
    match tryFlex p (c :: xs) with
    | some m => some m
    | none => searchFlex p xs

/-- Is the character at index `i` a word character (out of range counts as
non-word, as for `\b`). -/
def wordAtB (l : List Char) (i : ℕ) : Bool :=
  match l[i]? with
  | some c => isPyWordChar c
  | none => false

/-- `\b` holds at position `p` of `l`. -/
def bAt (l : List Char) (p : ℕ) : Bool :=
  (if p = 0 then false else wordAtB l (p - 1)) != wordAtB l p

/-- Leftmost match of `\b<pattern>\b` starting at position `i` of `full`,
scanning the suffix `s`. -/
def searchFlexBFrom (p full : List Char) : ℕ → List Char → Option (List Char)
  | i, [] =>
    match tryFlex p [] with
    | some m => if bAt full i && bAt full (i + m.length) then some m else none
    | none => none
  | i, c :: xs =>
    match tryFlex p (c :: xs) with
    | some m =>
      if bAt full i && bAt full (i + m.length) then some m
      else searchFlexBFrom p full (i + 1) xs
    | none => searchFlexBFrom p full (i + 1) xs

/-- `re.search(r'\b' + pattern + r'\b', full)`. -/
def searchFlexB (p full : List Char) : Option (List Char) :=
  searchFlexBFrom p full 0 full

/-- One window of method 4: for start index `i`, the first window of 1-4
words whose `fuzz.ratio` against the term reaches the threshold yields a
match (the `break` in the source stops at the first qualifying `j`); the
segment is recovered from the original text by the same flexible-space
regex, falling back to the window itself. -/
def windowEntry (r : List Char → List Char → ℕ) (tl text : List Char)
    (words : List (List Char)) (thr : ℕ) (term : List Char) (i : ℕ) :
    Option (List Char × ℕ × List Char) :=
  ((List.range (min 4 (words.length - i))).map (fun d => i + 1 + d)).findSome?
    (fun j =>
      if thr ≤ r tl (List.intercalate [' '] ((words.drop i).take (j - i))) then
        some (term, r tl (List.intercalate [' '] ((words.drop i).take (j - i))),
          (searchFlex (List.intercalate [' '] ((words.drop i).take (j - i))) text).getD
            (List.intercalate [' '] ((words.drop i).take (j - i))))
      else none)

/-- The matches one candidate term contributes: method 1 (exact substring of
the cleaned text, confidence 95), method 2 (word-boundary match in the
cleaned text, confidence 90), method 3 (fuzzy partial-ratio over the whole
cleaned text, confidence = score), method 4 (fuzzy ratio over 1-4-word
windows); the first qualifying method wins (`continue`). -/
def termMatchesL (pr r : List Char → List Char → ℕ) (text clean : List Char)
    (words : List (List Char)) (thr : ℕ) (term : List Char) :
    List (List Char × ℕ × List Char) :=
  if isInfixL (term.map Char.toLower) clean then
    match searchFlex term text with
    | some m => [(term, 95, m)]
    | none => []
  else if (searchFlexB (term.map Char.toLower) clean).isSome then
    match searchFlexB term text with
    | some m => [(term, 90, m)]
    | none => []
  else if thr ≤ pr (term.map Char.toLower) clean then
    [(term, pr (term.map Char.toLower) clean, "[Fuzzy match in full text]".data)]
  else
    (List.range words.length).filterMap
      (windowEntry r (term.map Char.toLower) text words thr term)

/-- Insert into a descending-by-confidence list, after any element of equal
confidence (preserving original order among ties, as Python's stable
`sorted` does). -/
def insertDesc (a : List Char × ℕ × List Char) :
    List (List Char × ℕ × List Char) → List (List Char × ℕ × List Char)
  | [] => [a]
  | b :: bs => if a.2.1 < b.2.1 then b :: insertDesc a bs else a :: b :: bs

/-- `sorted(matches, key=lambda x: x[1], reverse=True)` (a stable sort; the
stable insertion sort below produces the same list as Python's timsort,
stable sorts being unique). -/
def sortDescIns : List (List Char × ℕ × List Char) →
    List (List Char × ℕ × List Char)
  | [] => []
  | a :: as => insertDesc a (sortDescIns as)

/-- Keep the first (highest-confidence) match per distinct term. -/
def dedupByTerm : List (List Char × ℕ × List Char) → List (List Char) →
    List (List Char × ℕ × List Char)
  | [], _ => []
  | m :: ms, seen =>
    if m.1 ∈ seen then dedupByTerm ms seen
    else m :: dedupByTerm ms (m.1 :: seen)

/-- `self.name_confidence_threshold = 75`. -/
def nameConfidenceThreshold : ℕ := 75

/-- `self.location_confidence_threshold = 60`. -/
def locationConfidenceThreshold : ℕ := 60

/-- Embedding of `find_text_matches(text, search_terms, match_type)`. -/
def findTextMatches (pr r : List Char → List Char → ℕ) (text : List Char)
    (searchTerms : List (List Char)) (matchType : String) :
    List (List Char × ℕ × List Char) :=
  if text = [] ∨ searchTerms = [] then []
  else
    dedupByTerm (sortDescIns (searchTerms.flatMap
      (termMatchesL pr r text (cleanTextL text) (wordsOf (cleanTextL text))
        (if matchType = "name" then nameConfidenceThreshold
          else locationConfidenceThreshold)))) []

/-! Concrete fuzzy scorers, modelled from the external `python-Levenshtein`
backend fuzzywuzzy uses (the repository's requirements install it):
`fuzz.ratio = int(round(100 * (l1+l2-d)/(l1+l2)))` where `d` is the edit
distance with substitution cost 2, and `partial_ratio` is the best ratio of
the shorter string against same-length windows of the longer. -/

/-- Edit distance with unit insert/delete cost and substitution cost 2,
fuelled by the total length so the recursion is structural (the zero-fuel
case is unreachable when the fuel starts at `s.length + t.length`). -/
def levDF : ℕ → List Char → List Char → ℕ
  | _, [], t => t.length
  | _, s, [] => s.length
  | 0, _ :: _, _ :: _ => 0
  | fuel + 1, a :: s, b :: t =>
    if a = b then levDF fuel s t
    else min (levDF fuel s (b :: t) + 1)
      (min (levDF fuel (a :: s) t + 1) (levDF fuel s t + 2))

/-- Edit distance with unit insert/delete cost and substitution cost 2. -/
def levD (s t : List Char) : ℕ := levDF (s.length + t.length) s t

/-- `int(round(100 * num / den))` with Python's round-half-to-even. -/
def intr100 (num den : ℕ) : ℕ :=
  let x := 100 * num
  if 2 * (x % den) < den then x / den
  else if den < 2 * (x % den) then x / den + 1
  else if (x / den) % 2 = 0 then x / den else x / den + 1

/-- Modelled `fuzz.ratio`. -/
def fuzzRatioM (s t : List Char) : ℕ :=
  if s.length + t.length = 0 then 100
  else intr100 (s.length + t.length - levD s t) (s.length + t.length)

/-- Modelled `fuzz.partial_ratio`. -/
def fuzzPartialRatioM (s t : List Char) : ℕ :=
  let sh := if s.length ≤ t.length then s else t
  let lo := if s.length ≤ t.length then t else s
  if sh.length = 0 then 100
  else ((List.range (lo.length - sh.length + 1)).map
    (fun i => fuzzRatioM sh ((lo.drop i).take sh.length))).foldl max 0

/-- C3 counterexample: the term `"."` occurs verbatim (hence
case-insensitively) in the text `"."`, yet `find_text_matches` — run with
the modelled fuzzywuzzy scorers — returns no match at all for it, because
the exact-substring check is made against the punctuation-stripped cleaned
text, where the `'.'` has become a space. -/
theorem exact_substring_claim_fails :
    (".".data.map Char.toLower <:+: ".".data.map Char.toLower) ∧
    findTextMatches fuzzPartialRatioM fuzzRatioM ".".data [".".data] "name" = [] :=
  ⟨List.infix_refl _, by decide⟩

/-- The constant fuzzy scorers used to exhibit the C4 counterexample: the
whole-text partial ratio is one point below the name threshold, window
ratios are 80. -/
def c4pr : List Char → List Char → ℕ := fun _ _ => 74

def c4r : List Char → List Char → ℕ := fun _ _ => 80

/-- C4 counterexample: with a partial-ratio score of exactly one point below
the name threshold (74), neither exact-substring nor word-boundary
matching applies, yet the term still receives a MatchResult — the
sliding-window method (method 4) qualifies with the window's own fuzzy
ratio. -/
theorem fuzzy_one_below_threshold_still_matches :
    c4pr ("ab".data.map Char.toLower) (cleanTextL "cd".data) =
      nameConfidenceThreshold - 1 ∧
    isInfixL ("ab".data.map Char.toLower) (cleanTextL "cd".data) = false ∧
    (searchFlexB ("ab".data.map Char.toLower) (cleanTextL "cd".data)).isSome = false ∧
    findTextMatches c4pr c4r "cd".data ["ab".data] "name" =
      [("ab".data, 80, "cd".data)] := by
  decide

/-! ### Character-level lemmas -/

theorem ofNatAux_toNat (n : ℕ) (h : n.isValidChar) : (Char.ofNatAux n h).toNat = n := by
  simp [Char.ofNatAux, Char.toNat, UInt32.toNat, BitVec.toNat_ofNatLt]

theorem uint32_le_iff (a b : UInt32) : (a ≤ b) ↔ (a.toNat ≤ b.toNat) := Iff.rfl

/-- `str.lower()` keeps `\w` characters inside `\w`. -/
theorem isPyWordChar_toLower (c : Char) (h : isPyWordChar c = true) :
    isPyWordChar c.toLower = true := by
  unfold Char.toLower
  dsimp only
  split
  · next hn =>
    obtain ⟨h1, h2⟩ := hn
    have hv : (c.toNat + 32).isValidChar := by
      left
      change c.val.toNat + 32 < 55296
      change c.val.toNat ≤ 90 at h2
      omega
    unfold Char.ofNat
    rw [dif_pos hv]
    have htn : (Char.ofNatAux (c.toNat + 32) hv).toNat = c.toNat + 32 :=
      ofNatAux_toNat _ hv
    have hlow : (Char.ofNatAux (c.toNat + 32) hv).isLower = true := by
      unfold Char.isLower
      change c.val.toNat ≥ 65 at h1
      change c.val.toNat ≤ 90 at h2
      have h97 : (97 : UInt32) ≤ (Char.ofNatAux (c.toNat + 32) hv).val := by
        rw [uint32_le_iff]
        show 97 ≤ (Char.ofNatAux (c.toNat + 32) hv).toNat
        rw [htn]
        change 97 ≤ c.val.toNat + 32
        omega
      have h122 : (Char.ofNatAux (c.toNat + 32) hv).val ≤ 122 := by
        rw [uint32_le_iff]
        show (Char.ofNatAux (c.toNat + 32) hv).toNat ≤ 122
        rw [htn]
        change c.val.toNat + 32 ≤ 122
        omega
      simp [h97, h122]
    simp [isPyWordChar, Char.isAlphanum, Char.isAlpha, hlow]
  · exact h

/-- Only a space lowers to a space. -/
theorem eq_space_of_toLower_eq_space (c : Char) (h : c.toLower = ' ') : c = ' ' := by
  unfold Char.toLower at h
  dsimp only at h
  split at h
  · next hn =>
    exfalso
    obtain ⟨h1, h2⟩ := hn
    have hv : (c.toNat + 32).isValidChar := by
      left
      change c.val.toNat + 32 < 55296
      change c.val.toNat ≤ 90 at h2
      omega
    unfold Char.ofNat at h
    rw [dif_pos hv] at h
    have := congrArg Char.toNat h
    rw [ofNatAux_toNat _ hv] at this
    change c.val.toNat + 32 = 32 at this
    change c.val.toNat ≥ 65 at h1
    omega
  · exact h

/-- `str.lower()` fixes whitespace characters. -/
theorem toLower_of_isPyWs (c : Char) (h : isPyWs c = true) : c.toLower = c := by
  simp only [isPyWs, Bool.or_eq_true, beq_iff_eq] at h
  rcases h with ((((h | h) | h) | h) | h) | h <;> subst h <;> decide

/-- Cleaning fixes the lowercase image of a word-or-whitespace character. -/
theorem cleanChar_toLower_fix (c : Char)
    (h : isPyWordChar c = true ∨ isPyWs c = true) :
    cleanChar c.toLower = c.toLower := by
  rcases h with h | h
  · unfold cleanChar
    rw [if_pos (by rw [isPyWordChar_toLower c h]; rfl)]
  · rw [toLower_of_isPyWs c h]
    unfold cleanChar
    rw [if_pos (by rw [h]; simp)]

/-! ### Pattern-matcher lemmas -/

/-- The segment/pattern relation realised by `tryFlex`: literal characters
agree case-insensitively, each space in the pattern corresponds to a
non-empty whitespace run in the segment. -/
def flexEqB : List Char → List Char → Bool
  | [], m => m.isEmpty
  | c :: ps, m =>
    if c = ' ' then
      ((List.range (leadWs m)).map (fun j => j + 1)).any (fun j => flexEqB ps (m.drop j))
    else
      match m with
      | [] => false
      | x :: xs => (x.toLower == c.toLower) && flexEqB ps xs

theorem findSome?_isSome_of_mem {α β : Type} {f : α → Option β} {l : List α}
    {a : α} (ha : a ∈ l) (hf : (f a).isSome) : (l.findSome? f).isSome := by
  induction l with
  | nil => cases ha
  | cons x xs ih =>
    rw [List.findSome?_cons]
    cases hx : f x with
    | some b => simp
    | none =>
      rcases List.mem_cons.mp ha with h | h
      · subst h; rw [hx] at hf; simp at hf
      · exact ih h

theorem leadWs_le_length (s : List Char) : leadWs s ≤ s.length := by
  unfold leadWs
  exact (List.takeWhile_sublist _).length_le

theorem mem_take_leadWs_isPyWs (s : List Char) (j : ℕ) (hj : j ≤ leadWs s) :
    ∀ x ∈ s.take j, isPyWs x = true := by
  intro x hx
  have h1 : s.take j = (s.takeWhile isPyWs).take j := by
    conv_lhs => rw [← List.takeWhile_append_dropWhile (p := isPyWs) (l := s)]
    rw [List.take_append_of_le_length hj]
  rw [h1] at hx
  exact List.mem_takeWhile_imp (List.take_subset _ _ hx)

theorem leadWs_append_ge (u v : List Char) (hu : ∀ x ∈ u, isPyWs x = true) :
    u.length ≤ leadWs (u ++ v) := by
  unfold leadWs
  rw [List.takeWhile_append]
  have hall : u.takeWhile isPyWs = u := List.takeWhile_eq_self_iff.mpr hu
  rw [hall]
  simp

/-- Soundness of the matcher: a returned match is a prefix of the scanned
suffix and stands in the pattern relation. -/
theorem tryFlex_spec (p : List Char) : ∀ s m, tryFlex p s = some m →
    m <+: s ∧ flexEqB p m = true := by
  induction p with
  | nil =>
    intro s m hm
    simp only [tryFlex] at hm
    cases hm
    exact ⟨List.nil_prefix, rfl⟩
  | cons c ps ih =>
    intro s m hm
    by_cases hc : c = ' '
    · subst hc
      simp only [tryFlex, if_pos rfl] at hm
      obtain ⟨j, hj, hfj⟩ := List.exists_of_findSome?_eq_some hm
      obtain ⟨m', hm', hmm⟩ := Option.map_eq_some'.mp hfj
      obtain ⟨hpre, hflex⟩ := ih _ _ hm'
      have hjmem : ∃ i, i < leadWs s ∧ leadWs s - i = j := by
        obtain ⟨i, hi, hij⟩ := List.mem_map.mp hj
        exact ⟨i, List.mem_range.mp hi, hij⟩
      obtain ⟨i, hi, hij⟩ := hjmem
      have hj1 : 1 ≤ j := by omega
      have hjk : j ≤ leadWs s := by omega
      have hjlen : j ≤ s.length := le_trans hjk (leadWs_le_length s)
      subst hmm
      constructor
      · obtain ⟨r, hr⟩ := hpre
        exact ⟨r, by rw [List.append_assoc, hr, List.take_append_drop]⟩
      · have htakews : ∀ x ∈ s.take j, isPyWs x = true :=
          mem_take_leadWs_isPyWs s j hjk
        have hlead : j ≤ leadWs (s.take j ++ m') := by
          have := leadWs_append_ge (s.take j) m' htakews
          rw [List.length_take] at this
          omega
        have hdrop : (s.take j ++ m').drop j = m' := by
          rw [List.drop_append_of_le_length (by rw [List.length_take]; omega)]
          rw [List.drop_eq_nil_of_le (by rw [List.length_take]; omega), List.nil_append]
        simp only [flexEqB, if_true]
        rw [List.any_eq_true]
        refine ⟨j, ?_, ?_⟩
        · rw [List.mem_map]
          exact ⟨j - 1, List.mem_range.mpr (by omega), by omega⟩
        · rw [hdrop]
          exact hflex
    · simp only [tryFlex, if_neg hc] at hm
      cases s with
      | nil => exact absurd hm (by simp)
      | cons x xs =>
        dsimp only at hm
        by_cases hx : x.toLower = c.toLower
        · rw [if_pos hx] at hm
          obtain ⟨m', hm', hmm⟩ := Option.map_eq_some'.mp hm
          obtain ⟨hpre, hflex⟩ := ih _ _ hm'
          subst hmm
          refine ⟨List.cons_prefix_cons.mpr ⟨rfl, hpre⟩, ?_⟩
          simp only [flexEqB, if_neg hc]
          rw [Bool.and_eq_true, beq_iff_eq]
          exact ⟨hx, hflex⟩
        · rw [if_neg hx] at hm
          cases hm

/-- Completeness on literal occurrences: if `s` equals the pattern up to
case, the matcher succeeds on `s ++ rest` (a space in the pattern faces a
literal space in `s`, which the `\s+` consumes as a one-character run). -/
theorem tryFlex_literal (p : List Char) : ∀ s rest : List Char,
    s.map Char.toLower = p.map Char.toLower →
    (tryFlex p (s ++ rest)).isSome := by
  induction p with
  | nil =>
    intro s rest _
    simp [tryFlex]
  | cons c ps ih =>
    intro s rest hmap
    cases s with
    | nil => simp at hmap
    | cons x s' =>
      simp only [List.map_cons, List.cons.injEq] at hmap
      obtain ⟨hx, hrest⟩ := hmap
      by_cases hc : c = ' '
      · subst hc
        have hxsp : x = ' ' := by
          apply eq_space_of_toLower_eq_space
          rw [hx]
          decide
        subst hxsp
        simp only [tryFlex, if_true]
        have hlead1 : 1 ≤ leadWs (' ' :: s' ++ rest) := by
          unfold leadWs
          rw [List.cons_append, List.takeWhile_cons_of_pos (by decide)]
          simp
        apply findSome?_isSome_of_mem (a := 1)
        · rw [List.mem_map]
          refine ⟨leadWs (' ' :: s' ++ rest) - 1, List.mem_range.mpr (by omega), by omega⟩
        · have : (' ' :: s' ++ rest).drop 1 = s' ++ rest := rfl
          rw [this]
          have hih := ih s' rest hrest
          cases htf : tryFlex ps (s' ++ rest) with
          | none => rw [htf] at hih; simp at hih
          | some m => simp
      · simp only [tryFlex, if_neg hc, List.cons_append]
        rw [if_pos hx]
        have hih := ih s' rest hrest
        cases htf : tryFlex ps (s' ++ rest) with
        | none => rw [htf] at hih; simp at hih
        | some m => simp

/-- `re.search` succeeds somewhere if the pattern matches at some suffix. -/
theorem searchFlex_isSome (p : List Char) : ∀ pre tail : List Char,
    (tryFlex p tail).isSome → (searchFlex p (pre ++ tail)).isSome := by
  intro pre
  induction pre with
  | nil =>
    intro tail htf
    cases tail with
    | nil => simpa [searchFlex] using htf
    | cons c xs =>
      rw [List.nil_append]
      simp only [searchFlex]
      cases htc : tryFlex p (c :: xs) with
      | some m => simp
      | none => rw [htc] at htf; simp at htf
  | cons c pre' ih =>
    intro tail htf
    rw [List.cons_append]
    simp only [searchFlex]
    cases htc : tryFlex p (c :: (pre' ++ tail)) with
    | some m => simp
    | none => exact ih tail htf

/-- Soundness of `re.search`: a returned segment is a contiguous substring
of the text and stands in the pattern relation. -/
theorem searchFlex_spec (p : List Char) : ∀ s m : List Char,
    searchFlex p s = some m → m <:+: s ∧ flexEqB p m = true := by
  intro s
  induction s with
  | nil =>
    intro m hm
    simp only [searchFlex] at hm
    obtain ⟨hpre, hflex⟩ := tryFlex_spec p [] m hm
    exact ⟨hpre.isInfix, hflex⟩
  | cons c xs ih =>
    intro m hm
    simp only [searchFlex] at hm
    cases htc : tryFlex p (c :: xs) with
    | some m0 =>
      rw [htc] at hm
      cases hm
      obtain ⟨hpre, hflex⟩ := tryFlex_spec p (c :: xs) m htc
      exact ⟨hpre.isInfix, hflex⟩
    | none =>
      rw [htc] at hm
      obtain ⟨hinf, hflex⟩ := ih m hm
      exact ⟨List.infix_cons hinf, hflex⟩

/-- The executable substring test agrees with `List.IsInfix`. -/
theorem isInfixL_of_infix (u v : List Char) (h : u <:+: v) :
    isInfixL u v = true := by
  obtain ⟨s, t, hst⟩ := h
  induction s generalizing v with
  | nil =>
    have hpre : u <+: v := ⟨t, by simpa using hst⟩
    cases v with
    | nil => simpa [isInfixL] using List.isPrefixOf_iff_prefix.mpr hpre
    | cons c vs =>
      simp only [isInfixL, Bool.or_eq_true]
      exact Or.inl (List.isPrefixOf_iff_prefix.mpr hpre)
  | cons c s' ih =>
    cases v with
    | nil => simp at hst
    | cons d vs =>
      rw [List.cons_append, List.cons_append] at hst
      injection hst with hcd hrest
      simp only [isInfixL, Bool.or_eq_true]
      exact Or.inr (ih vs hrest)

/-- An infix of a mapped list is the image of an infix. -/
theorem infix_map_exists (f : Char → Char) (u : List Char) (l : List Char)
    (h : u <:+: l.map f) : ∃ u', u' <:+: l ∧ u'.map f = u := by
  obtain ⟨a, b, hab⟩ := h
  have h1 : l.map f = a ++ (u ++ b) := by rw [← hab, List.append_assoc]
  obtain ⟨l1, l23, hl, hm1, hm23⟩ := List.map_eq_append_iff.mp h1
  obtain ⟨l2, l3, hl2, hm2, hm3⟩ := List.map_eq_append_iff.mp hm23
  exact ⟨l2, ⟨l1, l3, by rw [hl, hl2, List.append_assoc]⟩, hm2⟩

/-! ### Sort / dedup / per-term lemmas -/

theorem mem_insertDesc (a x : List Char × ℕ × List Char)
    (l : List (List Char × ℕ × List Char)) :
    x ∈ insertDesc a l ↔ x = a ∨ x ∈ l := by
  induction l with
  | nil => simp [insertDesc]
  | cons b bs ih =>
    simp only [insertDesc]
    split
    · rw [List.mem_cons, ih, List.mem_cons]
      tauto
    · simp only [List.mem_cons]

theorem mem_sortDescIns (x : List Char × ℕ × List Char)
    (l : List (List Char × ℕ × List Char)) :
    x ∈ sortDescIns l ↔ x ∈ l := by
  induction l with
  | nil => simp [sortDescIns]
  | cons a as ih =>
    simp only [sortDescIns]
    rw [mem_insertDesc, ih, List.mem_cons]

theorem mem_of_mem_dedupByTerm (e : List Char × ℕ × List Char) :
    ∀ (l : List (List Char × ℕ × List Char)) (seen : List (List Char)),
    e ∈ dedupByTerm l seen → e ∈ l := by
  intro l
  induction l with
  | nil => intro seen h; simp [dedupByTerm] at h
  | cons m ms ih =>
    intro seen h
    simp only [dedupByTerm] at h
    split at h
    · exact List.mem_cons_of_mem m (ih seen h)
    · rcases List.mem_cons.mp h with h | h
      · exact h ▸ List.mem_cons_self m ms
      · exact List.mem_cons_of_mem m (ih _ h)

theorem dedupByTerm_covers (t : List Char) :
    ∀ (l : List (List Char × ℕ × List Char)) (seen : List (List Char)),
    t ∉ seen → (∃ e ∈ l, e.1 = t) →
    ∃ e ∈ dedupByTerm l seen, e.1 = t := by
  intro l
  induction l with
  | nil => intro seen _ h; simp at h
  | cons m ms ih =>
    intro seen hseen hex
    simp only [dedupByTerm]
    split
    · next hm =>
      apply ih seen hseen
      obtain ⟨e, he, het⟩ := hex
      rcases List.mem_cons.mp he with he | he
      · exfalso
        exact hseen (by rw [← het, he]; exact hm)
      · exact ⟨e, he, het⟩
    · next hm =>
      by_cases hmt : m.1 = t
      · exact ⟨m, List.mem_cons_self _ _, hmt⟩
      · obtain ⟨e, he, het⟩ := hex
        rcases List.mem_cons.mp he with he | he
        · exact absurd (he ▸ het) hmt
        · obtain ⟨e', he', het'⟩ := ih (m.1 :: seen)
            (by intro hc; rcases List.mem_cons.mp hc with hc | hc
                · exact hmt hc.symm
                · exact hseen hc)
            ⟨e, he, het⟩
          exact ⟨e', List.mem_cons_of_mem m he', het'⟩

/-- Every match a term's iteration contributes carries that term as its
first component. -/
theorem termMatchesL_fst (pr r : List Char → List Char → ℕ)
    (text clean : List Char) (words : List (List Char)) (thr : ℕ)
    (t : List Char) (e : List Char × ℕ × List Char)
    (he : e ∈ termMatchesL pr r text clean words thr t) : e.1 = t := by
  unfold termMatchesL at he
  split at he
  · split at he
    · rcases List.mem_singleton.mp he with rfl; rfl
    · simp at he
  · split at he
    · split at he
      · rcases List.mem_singleton.mp he with rfl; rfl
      · simp at he
    · split at he
      · rcases List.mem_singleton.mp he with rfl; rfl
      · obtain ⟨i, _, hwin⟩ := List.mem_filterMap.mp he
        unfold windowEntry at hwin
        obtain ⟨j, _, hj⟩ := List.exists_of_findSome?_eq_some hwin
        split at hj
        · cases hj; rfl
        · cases hj

/-- Membership in the final result implies membership in the contributing
term's own match list. -/
theorem mem_findTextMatches_term (pr r : List Char → List Char → ℕ)
    (text : List Char) (searchTerms : List (List Char)) (matchType : String)
    (e : List Char × ℕ × List Char)
    (he : e ∈ findTextMatches pr r text searchTerms matchType) :
    e ∈ termMatchesL pr r text (cleanTextL text) (wordsOf (cleanTextL text))
      (if matchType = "name" then nameConfidenceThreshold
        else locationConfidenceThreshold) e.1 := by
  unfold findTextMatches at he
  split at he
  · simp at he
  · have h1 := mem_of_mem_dedupByTerm e _ _ he
    rw [mem_sortDescIns] at h1
    obtain ⟨t, _, hmem⟩ := List.mem_flatMap.mp h1
    have := termMatchesL_fst pr r _ _ _ _ t e hmem
    rw [this]
    exact hmem

/-- If a term is searched and contributes a non-empty match list, the final
result keeps exactly one entry for it. -/
theorem findTextMatches_covers (pr r : List Char → List Char → ℕ)
    (text : List Char) (searchTerms : List (List Char)) (matchType : String)
    (term : List Char) (hmem : term ∈ searchTerms) (htext : text ≠ [])
    (hne : termMatchesL pr r text (cleanTextL text) (wordsOf (cleanTextL text))
      (if matchType = "name" then nameConfidenceThreshold
        else locationConfidenceThreshold) term ≠ []) :
    ∃ e ∈ findTextMatches pr r text searchTerms matchType, e.1 = term := by
  unfold findTextMatches
  rw [if_neg (by
    rintro (h | h)
    · exact htext h
    · rw [h] at hmem; cases hmem)]
  apply dedupByTerm_covers term _ [] (by simp)
  rcases hex : termMatchesL pr r text (cleanTextL text) (wordsOf (cleanTextL text))
      (if matchType = "name" then nameConfidenceThreshold
        else locationConfidenceThreshold) term with _ | ⟨e0, rest⟩
  · exact absurd hex hne
  · refine ⟨e0, ?_, ?_⟩
    · rw [mem_sortDescIns]
      exact List.mem_flatMap.mpr ⟨term, hmem, by rw [hex]; exact List.mem_cons_self _ _⟩
    · exact termMatchesL_fst pr r _ _ _ _ term e0 (by rw [hex]; exact List.mem_cons_self _ _)

/-- C3 amended: for a term made of (ASCII) word characters and whitespace
that occurs case-insensitively as a substring of the text, every call to
`find_text_matches` searching that term returns exactly a MatchResult for
it with confidence 95, whose matched segment is a contiguous substring of
the original (non-lowercased) text matching the term case-insensitively
with flexible internal whitespace.  (Terms containing punctuation can miss
entirely — see the counterexample — because the exact-substring check is
made against the punctuation-stripped cleaned text.) -/
theorem exact_substring_gives_95 (pr r : List Char → List Char → ℕ)
    (text term : List Char) (searchTerms : List (List Char)) (matchType : String)
    (hterm : ∀ c ∈ term, isPyWordChar c = true ∨ isPyWs c = true)
    (htermne : term ≠ [])
    (hocc : term.map Char.toLower <:+: text.map Char.toLower)
    (hmem : term ∈ searchTerms) :
    ∃ seg, (term, 95, seg) ∈ findTextMatches pr r text searchTerms matchType ∧
      seg <:+: text ∧ flexEqB term seg = true := by
  -- the text is non-empty
  have htext : text ≠ [] := by
    intro hnil
    obtain ⟨a, b, hab⟩ := hocc
    rw [hnil] at hab
    simp at hab
    exact htermne hab.2.1
  -- method 1's guard holds: cleaning fixes the lowered term
  have hfix : (term.map Char.toLower).map cleanChar = term.map Char.toLower := by
    rw [List.map_map]
    exact List.map_congr_left fun c hc => cleanChar_toLower_fix c (hterm c hc)
  have hguard : isInfixL (term.map Char.toLower) (cleanTextL text) = true := by
    apply isInfixL_of_infix
    have := hocc.map cleanChar
    rw [hfix] at this
    exact this
  -- the flexible-space regex finds a segment in the original text
  obtain ⟨s, hsinf, hsmap⟩ := infix_map_exists Char.toLower
    (term.map Char.toLower) text hocc
  obtain ⟨pre, post, hsplit⟩ := hsinf
  have hsearch : (searchFlex term text).isSome := by
    have h1 := tryFlex_literal term s post hsmap
    have h2 := searchFlex_isSome term pre (s ++ post) h1
    rw [← List.append_assoc, hsplit] at h2
    exact h2
  cases hseg : searchFlex term text with
  | none => rw [hseg] at hsearch; simp at hsearch
  | some seg =>
    have hlist : termMatchesL pr r text (cleanTextL text) (wordsOf (cleanTextL text))
        (if matchType = "name" then nameConfidenceThreshold
          else locationConfidenceThreshold) term = [(term, 95, seg)] := by
      unfold termMatchesL
      rw [if_pos hguard, hseg]
    obtain ⟨e, he, hefst⟩ := findTextMatches_covers pr r text searchTerms matchType
      term hmem htext (by rw [hlist]; simp)
    have hemem := mem_findTextMatches_term pr r text searchTerms matchType e he
    rw [hefst, hlist] at hemem
    rcases List.mem_singleton.mp hemem with rfl
    obtain ⟨hinf, hflex⟩ := searchFlex_spec term text seg hseg
    exact ⟨seg, he, hinf, hflex⟩

/-- Witness for C3 amended: the term `"Jane Doe"` inside
`"met Jane Doe today"`, with the modelled fuzzywuzzy scorers. -/
theorem exact_substring_gives_95_witness :
    ∃ seg, ("Jane Doe".data, 95, seg) ∈
        findTextMatches fuzzPartialRatioM fuzzRatioM "met Jane Doe today".data
          ["Jane Doe".data] "name" ∧
      seg <:+: "met Jane Doe today".data ∧ flexEqB "Jane Doe".data seg = true :=
  exact_substring_gives_95 fuzzPartialRatioM fuzzRatioM
    "met Jane Doe today".data "Jane Doe".data ["Jane Doe".data] "name"
    (by decide) (by decide) ⟨"met ".data, " today".data, by decide⟩ (by decide)

/-- C4 amended: for a term that neither the exact-substring nor the
word-boundary method matched, a fuzzy partial-ratio score exactly equal to
the threshold (75 for name terms, 60 for location terms) qualifies and
yields a MatchResult with confidence equal to that score; a score one point
below the threshold produces no match from the partial-ratio method — the
term can still receive a MatchResult from the sliding-window method (see
the counterexample), and produces none at all exactly when every 1-4-word
window's fuzzy ratio is also below the threshold. -/
theorem fuzzy_threshold_boundary (pr r : List Char → List Char → ℕ)
    (text term : List Char) (searchTerms : List (List Char)) (matchType : String)
    (hmem : term ∈ searchTerms) (htext : text ≠ [])
    (hm1 : isInfixL (term.map Char.toLower) (cleanTextL text) = false)
    (hm2 : (searchFlexB (term.map Char.toLower) (cleanTextL text)).isSome = false) :
    ((pr (term.map Char.toLower) (cleanTextL text) =
        (if matchType = "name" then nameConfidenceThreshold
          else locationConfidenceThreshold)) →
      (term, (if matchType = "name" then nameConfidenceThreshold
          else locationConfidenceThreshold),
        "[Fuzzy match in full text]".data) ∈
        findTextMatches pr r text searchTerms matchType) ∧
    ((pr (term.map Char.toLower) (cleanTextL text) =
        (if matchType = "name" then nameConfidenceThreshold
          else locationConfidenceThreshold) - 1) →
      (∀ i d, i < (wordsOf (cleanTextL text)).length →
        d < min 4 ((wordsOf (cleanTextL text)).length - i) →
        r (term.map Char.toLower)
            (List.intercalate [' '] (((wordsOf (cleanTextL text)).drop i).take (d + 1))) <
          (if matchType = "name" then nameConfidenceThreshold
            else locationConfidenceThreshold)) →
      ∀ conf seg, (term, conf, seg) ∉ findTextMatches pr r text searchTerms matchType) := by
  have hthr1 : 1 ≤ (if matchType = "name" then nameConfidenceThreshold
      else locationConfidenceThreshold) := by
    split <;> decide
  constructor
  · intro hscore
    have hlist : termMatchesL pr r text (cleanTextL text) (wordsOf (cleanTextL text))
        (if matchType = "name" then nameConfidenceThreshold
          else locationConfidenceThreshold) term =
        [(term, (if matchType = "name" then nameConfidenceThreshold
          else locationConfidenceThreshold), "[Fuzzy match in full text]".data)] := by
      unfold termMatchesL
      rw [if_neg (by rw [hm1]; simp), if_neg (by rw [hm2]; simp),
        if_pos (le_of_eq hscore.symm), hscore]
    obtain ⟨e, he, hefst⟩ := findTextMatches_covers pr r text searchTerms matchType
      term hmem htext (by rw [hlist]; simp)
    have hemem := mem_findTextMatches_term pr r text searchTerms matchType e he
    rw [hefst, hlist] at hemem
    rcases List.mem_singleton.mp hemem with rfl
    exact he
  · intro hscore hwin conf seg hmem'
    have hlist : termMatchesL pr r text (cleanTextL text) (wordsOf (cleanTextL text))
        (if matchType = "name" then nameConfidenceThreshold
          else locationConfidenceThreshold) term = [] := by
      unfold termMatchesL
      rw [if_neg (by rw [hm1]; simp), if_neg (by rw [hm2]; simp),
        if_neg (by rw [hscore]; omega)]
      rw [List.filterMap_eq_nil_iff]
      intro i hi
      unfold windowEntry
      rw [List.findSome?_eq_none_iff]
      intro j hj
      obtain ⟨d, hd, hjd⟩ := List.mem_map.mp hj
      rw [List.mem_range] at hd
      subst hjd
      have hji : i + 1 + d - i = d + 1 := by omega
      rw [hji]
      rw [if_neg]
      rw [not_le]
      exact hwin i d (by rw [List.mem_range] at hi; exact hi) hd
    have hemem := mem_findTextMatches_term pr r text searchTerms matchType
      (term, conf, seg) hmem'
    rw [show (term, conf, seg).1 = term from rfl, hlist] at hemem
    cases hemem

/-- Witness for C4 amended (part 1) at concrete inputs: a scorer returning
exactly the name threshold for the whole cleaned text produces a
MatchResult with that confidence. -/
theorem fuzzy_threshold_boundary_witness :
    ("ab".data, nameConfidenceThreshold, "[Fuzzy match in full text]".data) ∈
      findTextMatches (fun _ _ => 75) (fun _ _ => 0) "cd".data ["ab".data] "name" := by
  have h := (fuzzy_threshold_boundary (fun _ _ => 75) (fun _ _ => 0) "cd".data
    "ab".data ["ab".data] "name" (by decide) (by decide) (by decide) (by decide)).1
    (by decide)
  simpa using h

end RMTFinder
